import Mathlib

/-!
Verification development for the hc2 load-time subsystem
(`src/hc2/headers/types/program_state.hpp`).

The C++ code is shallowly embedded: ELF symbols, loaded modules, code
objects and driver calls become explicit Lean data; the process-wide
tables (`symbol_addresses`, `globals`, the code-object, executable and
kernel tables) become association lists threaded through the functions
that the source builds them with.  Machine addresses and sizes are
modelled as `Nat`; exceptions become `Except String`.
-/

namespace HC2

/-- ELF constant `STT_OBJECT` (data-object symbol type). -/
def STT_OBJECT : Nat := 1

/-- ELF constant `SHN_UNDEF` (undefined section index). -/
def SHN_UNDEF : Nat := 0

/-- One ELF symbol-table entry, as produced by `read_symbol` in the source
(name, value, size, section index, binding, type). -/
structure Sym where
  name : String
  value : Nat
  size : Nat
  sectIdx : Nat
  bind : Nat
  type : Nat
  deriving Repr, DecidableEq

/-- One loaded module as seen by a `dl_iterate_phdr` callback: whether the
ELF file loads successfully in ELFIO (`reader.load`), its load bias
(`dlpi_addr`) and the symbols of its `SHT_SYMTAB` section. -/
structure Module where
  loadOk : Bool
  bias : Nat
  syms : List Sym
  deriving Repr, DecidableEq

/-- Association-list lookup, first binding wins (models lookup in the
source's `std::unordered_map`s, which hold at most one binding per key). -/
def alookup {α β : Type} [DecidableEq α] : List (α × β) → α → Option β
  | [], _ => none
  | p :: ps, k => if p.1 = k then some p.2 else alookup ps k

/-- `std::unordered_map::emplace`: insert only if the key is absent;
an existing binding is never overwritten. -/
def emplace {α β : Type} [DecidableEq α] (t : List (α × β)) (k : α) (v : β) :
    List (α × β) :=
  if (alookup t k).isSome then t else t ++ [(k, v)]


/-- `copy_names_of_undefined_symbols` from the source: the names of the
entries of a symbol section whose section index is `SHN_UNDEF` and whose
name is non-empty, in section order. -/
def copy_names_of_undefined_symbols (syms : List Sym) : List String :=
  syms.filterMap (fun s =>
    if s.sectIdx = SHN_UNDEF ∧ s.name ≠ "" then some s.name else none)

/-- The per-entry filter and address computation of the main-image
`symbol_addresses` scanner: record data-object symbols defined in some
section, adding the load bias exactly when the running iteration counter
is non-zero. -/
def recordOfSym (isMain : Bool) (bias : Nat) (s : Sym) :
    Option (String × Nat × Nat) :=
  if s.type = STT_OBJECT ∧ s.sectIdx ≠ SHN_UNDEF then
    some (s.name, s.value + (if isMain then 0 else bias), s.size)
  else none

/-- The ordered record stream produced by the main-image `symbol_addresses`
scanner (first file, lines 97–127): the callback loads the ELF file, and on
success records its object symbols, biasing by `dlpi_addr` whenever the
success counter `iter` is non-zero; `iter` advances only on successful
loads. -/
def scanRecordsV1 : List Module → Nat → List (String × Nat × Nat)
  | [], _ => []
  | m :: ms, iter =>
    if m.loadOk then
      m.syms.filterMap (recordOfSym (decide (iter = 0)) m.bias)
        ++ scanRecordsV1 ms (iter + 1)
    else
      scanRecordsV1 ms iter

/-- The per-entry filter of the shared-object `symbol_addresses` scanner
(second file, lines 709–717): same filter, but the raw symbol value is
recorded with no load bias applied. -/
def recordOfSymV2 (s : Sym) : Option (String × Nat × Nat) :=
  if s.type = STT_OBJECT ∧ s.sectIdx ≠ SHN_UNDEF then
    some (s.name, s.value, s.size)
  else none

/-- The ordered record stream of the shared-object `symbol_addresses`
scanner: every successfully loaded module contributes its object symbols
with their raw values. -/
def scanRecordsV2 : List Module → List (String × Nat × Nat)
  | [] => []
  | m :: ms =>
    if m.loadOk then
      m.syms.filterMap recordOfSymV2 ++ scanRecordsV2 ms
    else
      scanRecordsV2 ms

/-- Folding the record stream into the Host Symbol Table with
`unordered_map::emplace` (no overwrite). -/
def buildTable (rs : List (String × Nat × Nat)) : List (String × Nat × Nat) :=
  rs.foldl (fun t r => emplace t r.1 r.2) []

/-- The main-image Host Symbol Table. -/
def symbol_addresses (ms : List Module) : List (String × Nat × Nat) :=
  buildTable (scanRecordsV1 ms 0)

/-- The shared-object Host Symbol Table. -/
def symbol_addresses_v2 (ms : List Module) : List (String × Nat × Nat) :=
  buildTable (scanRecordsV2 ms)

/-! ## Global-Symbol Linker (`associate_code_object_symbols_with_host_allocation`) -/

/-- Shared process state touched by the Global-Symbol Linker: the
Pinned-Global Table `globals` (name ↦ host address stored by `emplace`),
the ordered list of `hsa_amd_memory_lock` pin events (name, host address,
size) and the ordered list of
`hsa_executable_agent_global_variable_define` events (agent, name, device
pointer). -/
structure GState where
  globals : List (String × Nat)
  pins : List (String × Nat × Nat)
  defines : List (Nat × String × Nat)
  deriving Repr, DecidableEq

/-- Process start: all shared tables empty. -/
def initGState : GState := ⟨[], [], []⟩

/-- The critical section of the linker, executed under the process-wide
`static std::mutex` (source lines 177–187): re-check the Pinned-Global
Table; if the name is still absent, `emplace` the host address, pin the
host range (`lock` models the device pointer `hsa_amd_memory_lock`
returns) and define the symbol on the agent's executable. -/
def lockedSection (lock : Nat → Nat → Nat) (agent : Nat) (x : String)
    (addr size : Nat) (s : GState) : GState :=
  if (alookup s.globals x).isSome then s
  else
    { globals := s.globals ++ [(x, addr)]
      pins := s.pins ++ [(x, addr, size)]
      defines := s.defines ++ [(agent, x, lock addr size)] }

/-- One scheduled entry into the linker's critical section by some thread:
the thread's agent and its local values (symbol name, host address and
size it read from the Host Symbol Table before taking the lock). -/
structure PinStep where
  agent : Nat
  name : String
  addr : Nat
  size : Nat
  deriving Repr, DecidableEq

/-- An interleaved execution: the mutex serialises the critical sections,
so any concurrent construction of executables is some sequence of
`lockedSection` steps over the shared state. -/
def runSteps (lock : Nat → Nat → Nat) (steps : List PinStep) (s : GState) :
    GState :=
  steps.foldl (fun s st => lockedSection lock st.agent st.name st.addr st.size s) s

/-- Number of pin events recorded for a symbol name. -/
def countPins (x : String) (s : GState) : Nat :=
  s.pins.countP (fun p => p.1 = x)

/-- The sequential body of
`associate_code_object_symbols_with_host_allocation` (source lines
168–188), for one list of undefined symbol names: unlocked check of the
Pinned-Global Table (an early `return` from the whole function if the
name is present), Host Symbol Table lookup (`throw` if absent), then the
locked re-check / emplace / pin / define, and on to the next name. -/
def associate_code_object_symbols_with_host_allocation
    (symtab : String → Option (Nat × Nat)) (lock : Nat → Nat → Nat)
    (agent : Nat) : List String → GState → Except String GState
  | [], s => .ok s
  | x :: xs, s =>
    if (alookup s.globals x).isSome then .ok s
    else
      match symtab x with
      | none => .error ("Global symbol: " ++ x ++ " is undefined.")
      | some (addr, size) =>
        if (alookup s.globals x).isSome then .ok s
        else
          associate_code_object_symbols_with_host_allocation symtab lock agent xs
            (lockedSection lock agent x addr size s)



/-! ## Bundle Extractor -/

/-- One bundle entry: a target-triple string and its code-object blob,
both modelled as byte sequences. -/
structure BundleEntry where
  triple : List Nat
  blob : List Nat
  deriving Repr, DecidableEq

/-- `Bundled_code_header`: the decoded form of one bundled container, an
ordered sequence of bundle entries. -/
structure Bundled_code_header where
  entries : List BundleEntry
  deriving Repr, DecidableEq

/-- Modelled from the spec: the fixed magic bytes opening every bundled
container (`code_object_bundle.hpp` is not part of the sources; §6 of the
spec fixes only that a container "begins with a fixed magic/version
header"). -/
def bundleMagic : List Nat := [79, 66]

/-- Modelled from the spec: the container format version. -/
def bundleVersion : Nat := 1

/-- Modelled from the spec: serialised form of one bundle entry — the
triple length, the triple bytes, the blob length, the blob bytes (each
length occupies one symbol of the byte-sequence model). -/
def encodeEntry (e : BundleEntry) : List Nat :=
  e.triple.length :: (e.triple ++ e.blob.length :: e.blob)

/-- Modelled from the spec: serialised form of one bundled container —
magic, version, entry count, then the entries back-to-back; the total
container length is recoverable during decoding so the next container can
be located. -/
def encodeBundle (h : Bundled_code_header) : List Nat :=
  bundleMagic ++ bundleVersion :: h.entries.length :: (h.entries.map encodeEntry).flatten

/-- Modelled from the spec: decode `n` entries, returning them together
with the number of bytes consumed; any truncation is a structural
failure. -/
def decodeEntries : Nat → List Nat → Option (List BundleEntry × Nat)
  | 0, _ => some ([], 0)
  | n + 1, bytes =>
    match bytes with
    | [] => none
    | tl :: rest =>
      if tl ≤ rest.length then
        match rest.drop tl with
        | [] => none
        | bl :: rest3 =>
          if bl ≤ rest3.length then
            match decodeEntries n (rest3.drop bl) with
            | some (es, c) =>
              some (⟨rest.take tl, rest3.take bl⟩ :: es, 1 + tl + 1 + bl + c)
            | none => none
          else none
      else none

/-- Modelled from the spec: attempt to decode one bundled container at the
head of a byte range (the `Bundled_code_header` constructor together with
`valid`); on success also yield the container's total size
(`read_bundle_size`). -/
def decodeBundledContainer (bytes : List Nat) :
    Option (Bundled_code_header × Nat) :=
  match bytes with
  | m1 :: m2 :: v :: cnt :: rest =>
    if [m1, m2] = bundleMagic ∧ v = bundleVersion then
      match decodeEntries cnt rest with
      | some (es, c) => some (⟨es⟩, 4 + c)
      | none => none
    else none
  | _ => none

/-- The reserved-section scan loop of `kernel_sections_` (source lines
380–395, identical in structure to `shared_object_kernel_sections_` lines
787–800): starting at offset 0, repeatedly decode one container; while the
decoded container is valid, keep it and advance by its declared size; stop
at the end of the section or at the first decode failure.  The offset is
modelled by dropping consumed bytes; the fuel argument bounds the loop. -/
def kernel_sections_loop : Nat → List Nat → List Bundled_code_header
  | 0, _ => []
  | fuel + 1, bytes =>
    if bytes.isEmpty then []
    else
      match decodeBundledContainer bytes with
      | some (h, n) => h :: kernel_sections_loop fuel (bytes.drop n)
      | none => []

/-- The containers recovered from one reserved section. -/
def kernel_sections_of (bytes : List Nat) : List Bundled_code_header :=
  kernel_sections_loop (bytes.length + 1) bytes

/-! ## ISA Resolver and Code-Object Table Builder -/

/-- Modelled from the spec: `triple_to_hsa_isa` (declared in
`hsa_interfaces.hpp`, not part of the sources) maps a target triple to the
runtime's ISA identifier via the supported target set, and any other
triple to the reserved unresolved value `hsa_isa_t{0}`, here `0`. -/
def triple_to_hsa_isa (supported : List (List Nat × Nat)) (t : List Nat) : Nat :=
  match alookup supported t with
  | some isa => isa
  | none => 0

/-- Remove every binding of a key (`std::unordered_map::erase`). -/
def eraseKey {β : Type} (t : List (Nat × β)) (k : Nat) : List (Nat × β) :=
  t.filter (fun p => !(p.1 = k : Bool))

/-- `y[k].push_back(v)` on a map from ISA to a list of blobs. -/
def insertAppend {β : Type} (t : List (Nat × List β)) (k : Nat) (v : β) :
    List (Nat × List β) :=
  match alookup t k with
  | some vs =>
    t.map (fun p => if p.1 = k then (p.1, vs ++ [v]) else p)
  | none => t ++ [(k, [v])]

/-- `make_code_object_table_` (source lines 402–412): append every
entry's blob under its resolved ISA, then erase the placeholder
`hsa_isa_t{0}` key. -/
def make_code_object_table_ (supported : List (List Nat × Nat))
    (h : Bundled_code_header) (y : List (Nat × List (List Nat))) :
    List (Nat × List (List Nat)) :=
  eraseKey
    (h.entries.foldl
      (fun y z => insertAppend y (triple_to_hsa_isa supported z.triple) z.blob)
      y)
    0

/-- `code_object_table_` (source lines 415–427): fold every recovered
container into the process-wide Code-Object Table. -/
def code_object_table_ (supported : List (List Nat × Nat))
    (hs : List Bundled_code_header) : List (Nat × List (List Nat)) :=
  hs.foldl (fun y h => make_code_object_table_ supported h y) []

/-! ## Executable Builder -/

/-- Statuses returned by the driver for the calls made while building one
executable (`0` models `HSA_STATUS_SUCCESS`). -/
structure Driver where
  createStatus : Nat
  loadStatus : Nat
  validateStatus : Nat
  freezeStatus : Nat
  deriving Repr, DecidableEq

/-- One code object as the main-image Executable Builder consumes it:
whether ELFIO parses the blob (`reader.load`), the `SHT_DYNSYM` section if
one exists, and the driver's responses to the calls made for it. -/
structure CodeObj where
  parseOk : Bool
  dynsym : Option (List Sym)
  driver : Driver
  deriving Repr, DecidableEq

/-- A driver-level executable as published into the Executable Table;
the flags record which driver operations actually succeeded on it. -/
structure Exec where
  created : Bool
  loaded : Bool
  frozen : Bool
  deriving Repr, DecidableEq

/-- `throwing_hsa_result_check` (as in `throwing_amd_comgr_result_check`
of `code_object_manager.hpp`): non-success statuses raise. -/
def throwing_hsa_result_check (status : Nat) (ctx : String) :
    Except String Unit :=
  if status = 0 then .ok ()
  else .error ("Failed in " ++ ctx ++ ", with error: " ++ toString status)

/-- The main-image `executable` (source lines 226–251): if the blob does
not parse, return an empty executable (no error); otherwise create the
executable, link its undefined symbols (`associate_...`, whose failure
propagates) and call `load_code_object_and_freeze_executable` — the
statuses of `hsa_executable_create_alt`,
`hsa_code_object_reader_create_from_memory`,
`hsa_executable_load_agent_code_object` and `hsa_executable_freeze` are
all ignored by the source, so a failed call leaves its flag false but
raises nothing. -/
def executableV1 (symtab : String → Option (Nat × Nat))
    (lock : Nat → Nat → Nat) (co : CodeObj) (agent : Nat) (s : GState) :
    Except String (Exec × GState) :=
  if co.parseOk then
    match
      (match co.dynsym with
       | none => .ok s
       | some syms =>
         associate_code_object_symbols_with_host_allocation symtab lock agent
           (copy_names_of_undefined_symbols syms) s : Except String GState) with
    | .error m => .error m
    | .ok s' =>
      .ok ({ created := co.driver.createStatus == 0
             loaded := co.driver.loadStatus == 0
             frozen := co.driver.freezeStatus == 0 }, s')
  else
    .ok ({ created := false, loaded := false, frozen := false }, s)

/-- The shared-object `executable` (second file, lines 578–618): create,
load, validate and freeze, each wrapped in `throwing_hsa_result_check`, so
the first failing driver call aborts with an error. -/
def executableV2 (d : Driver) (_agent : Nat) : Except String Exec := do
  throwing_hsa_result_check d.createStatus "hsa_executable_create_alt"
  throwing_hsa_result_check d.loadStatus "hsa_executable_load_agent_code_object"
  throwing_hsa_result_check d.validateStatus "hsa_executable_validate_alt"
  throwing_hsa_result_check d.freezeStatus "hsa_executable_freeze"
  .ok { created := true, loaded := true, frozen := true }

/-- One accelerator of the filtered list: its agent handle and ISA. -/
structure Accel where
  agent : Nat
  isa : Nat
  deriving Repr, DecidableEq

/-- Build the executables of one agent from the code objects of its ISA,
threading the linker state (main-image builder). -/
def execsForAgent (symtab : String → Option (Nat × Nat))
    (lock : Nat → Nat → Nat) (agent : Nat) :
    List CodeObj → GState → Except String (List Exec × GState)
  | [], s => .ok ([], s)
  | co :: cos, s =>
    match executableV1 symtab lock co agent s with
    | .error m => .error m
    | .ok (e, s') =>
      match execsForAgent symtab lock agent cos s' with
      | .error m => .error m
      | .ok (es, s'') => .ok (e :: es, s'')

/-- Append executables to an agent's list in the Executable Table
(`y[hsa_agent(a)].push_back(...)`). -/
def pushExecs (t : List (Nat × List Exec)) (agent : Nat) (es : List Exec) :
    List (Nat × List Exec) :=
  match alookup t agent with
  | some old => t.map (fun p => if p.1 = agent then (p.1, old ++ es) else p)
  | none => t ++ [(agent, es)]

/-- `make_executable_table_` of the main-image Program state (source lines
429–440): for each accelerator, look its ISA up in the Code-Object Table;
when absent, create nothing for that accelerator; when present, build one
executable per blob — a failure aborts the whole construction. -/
def make_executable_table_ (symtab : String → Option (Nat × Nat))
    (lock : Nat → Nat → Nat) :
    List Accel → List (Nat × List CodeObj) → List (Nat × List Exec) →
    GState → Except String (List (Nat × List Exec) × GState)
  | [], _, y, s => .ok (y, s)
  | a :: accs, cot, y, s =>
    match alookup cot a.isa with
    | none => make_executable_table_ symtab lock accs cot y s
    | some cos =>
      match execsForAgent symtab lock a.agent cos s with
      | .error m => .error m
      | .ok (es, s') =>
        make_executable_table_ symtab lock accs cot (pushExecs y a.agent es) s'

/-- `make_executable_table_` of the shared-object Program state (second
file, lines 840–851), whose `executable` performs the four checked driver
calls and no symbol linking. -/
def make_executable_table_v2 :
    List Accel → List (Nat × List Driver) → List (Nat × List Exec) →
    Except String (List (Nat × List Exec))
  | [], _, y => .ok y
  | a :: accs, cot, y =>
    match alookup cot a.isa with
    | none => make_executable_table_v2 accs cot y
    | some ds =>
      match ds.foldlM (fun es d => (executableV2 d a.agent).map (es ++ [·])) [] with
      | .error m => .error m
      | .ok es => make_executable_table_v2 accs cot (pushExecs y a.agent es)

/-! ## Concrete fixtures used by counterexamples and witnesses -/

/-- A host symbol table oracle with two entries, as a function. -/
def symtabGH : String → Option (Nat × Nat) :=
  fun n => if n = "g" then some (7, 4) else if n = "h" then some (20, 8) else none

/-- A pin oracle: the device-visible pointer the driver reports for a
pinned host range. -/
def lockOracle : Nat → Nat → Nat := fun addr _ => addr + 1000

/-- Linker state in which symbol `g` is already pinned (as left behind by
the construction of a previous executable for agent `1`). -/
def gPinned : GState :=
  ⟨[("g", 7)], [("g", 7, 4)], [(1, "g", 1007)]⟩

/-- A code object that parses, needs no symbols, and whose freeze call
fails with status `1`. -/
def coFreezeFail : CodeObj :=
  ⟨true, none, ⟨0, 0, 0, 1⟩⟩

/-! ## General lemmas and claim theorems -/

theorem alookup_append_right {α β : Type} [DecidableEq α]
    (t u : List (α × β)) (k : α) (h : alookup t k = none) :
    alookup (t ++ u) k = alookup u k := by
  induction t with
  | nil => rfl
  | cons p ps ih =>
    by_cases hk : p.1 = k
    · simp [alookup, hk] at h
    · simp [alookup, hk] at h ⊢
      exact ih h

theorem alookup_append_left {α β : Type} [DecidableEq α]
    (t u : List (α × β)) (k : α) {v : β} (h : alookup t k = some v) :
    alookup (t ++ u) k = some v := by
  induction t with
  | nil => simp [alookup] at h
  | cons p ps ih =>
    by_cases hk : p.1 = k
    · simp [alookup, hk] at h ⊢; exact h
    · simp [alookup, hk] at h ⊢
      exact ih h

theorem alookup_append_single_other {α β : Type} [DecidableEq α]
    (t : List (α × β)) (k k' : α) (v : β) (h : k ≠ k') :
    alookup (t ++ [(k, v)]) k' = alookup t k' := by
  induction t with
  | nil => simp [alookup, h]
  | cons p ps ih =>
    by_cases hk : p.1 = k'
    · simp [alookup, hk]
    · simp [alookup, hk, ih]

theorem alookup_emplace_other {α β : Type} [DecidableEq α]
    (t : List (α × β)) (k k' : α) (v : β) (h : k ≠ k') :
    alookup (emplace t k v) k' = alookup t k' := by
  unfold emplace
  by_cases hs : (alookup t k).isSome
  · simp [hs]
  · simp [hs, alookup_append_single_other t k k' v h]
theorem alookup_emplaceFold {α β : Type} [DecidableEq α]
    (rs : List (α × β)) (t : List (α × β)) (k : α) :
    alookup (rs.foldl (fun t r => emplace t r.1 r.2) t) k =
      ((alookup t k).orElse (fun _ => (rs.find? (fun r => r.1 = k)).map (·.2))) := by
  induction rs generalizing t with
  | nil => cases h : alookup t k <;> simp [Option.orElse, h]
  | cons r rs ih =>
    simp only [List.foldl_cons, List.find?]
    rw [ih]
    by_cases hk : r.1 = k
    · subst hk
      unfold emplace
      cases ht : alookup t r.1 with
      | some v => simp [ht, alookup_append_left t [(r.1, r.2)] r.1 ht, Option.orElse]
      | none =>
        simp [ht]
        rw [alookup_append_right t [(r.1, r.2)] r.1 ht]
        simp [alookup, Option.orElse]
    · rw [alookup_emplace_other t r.1 k r.2 hk]
      simp [hk]

/-- Lookup in the built table returns the first record, in scan order. -/
theorem alookup_buildTable (rs : List (String × Nat × Nat)) (k : String) :
    alookup (buildTable rs) k = (rs.find? (fun r => r.1 = k)).map (·.2) := by
  unfold buildTable
  rw [alookup_emplaceFold]
  simp [alookup, Option.orElse]

/-! ### At-most-once pinning invariant -/

theorem countPins_lockedSection_le (lock : Nat → Nat → Nat) (agent : Nat)
    (x y : String) (addr size : Nat) (s : GState)
    (h1 : countPins x s ≤ 1)
    (h2 : 1 ≤ countPins x s → (alookup s.globals x).isSome) :
    countPins x (lockedSection lock agent y addr size s) ≤ 1 ∧
      (1 ≤ countPins x (lockedSection lock agent y addr size s) →
        (alookup (lockedSection lock agent y addr size s).globals x).isSome) := by
  unfold lockedSection
  by_cases hin : (alookup s.globals y).isSome
  · rw [if_pos hin]; exact ⟨h1, h2⟩
  · rw [if_neg hin]
    by_cases hxy : y = x
    · subst hxy
      have hz : countPins y s = 0 := by
        by_contra hc
        exact hin (h2 (Nat.one_le_iff_ne_zero.mpr hc))
      have hn : alookup s.globals y = none := by
        cases hl : alookup s.globals y with
        | none => rfl
        | some v => rw [hl] at hin; simp at hin
      constructor
      · simp only [countPins, List.countP_append] at hz ⊢
        simp [hz, List.countP_cons]
      · intro _
        show (alookup (s.globals ++ [(y, addr)]) y).isSome = true
        rw [alookup_append_right s.globals _ y hn]
        simp [alookup]
    · have hcount : countPins x
          { globals := s.globals ++ [(y, addr)]
            pins := s.pins ++ [(y, addr, size)]
            defines := s.defines ++ [(agent, y, lock addr size)] } = countPins x s := by
        simp [countPins, List.countP_append, List.countP_cons, hxy]
      constructor
      · rw [hcount]; exact h1
      · intro hge
        rw [hcount] at hge
        have hs' := h2 hge
        show (alookup (s.globals ++ [(y, addr)]) x).isSome = true
        cases hl : alookup s.globals x with
        | none => rw [hl] at hs'; simp at hs'
        | some v =>
          rw [alookup_append_left s.globals _ x hl]
          rfl

theorem countPins_runSteps_invariant (lock : Nat → Nat → Nat)
    (steps : List PinStep) (x : String) (s : GState)
    (h1 : countPins x s ≤ 1)
    (h2 : 1 ≤ countPins x s → (alookup s.globals x).isSome) :
    countPins x (runSteps lock steps s) ≤ 1 := by
  induction steps generalizing s with
  | nil => exact h1
  | cons st steps ih =>
    have h := countPins_lockedSection_le lock st.agent x st.name st.addr st.size s h1 h2
    exact ih (lockedSection lock st.agent st.name st.addr st.size s) h.1 h.2

/-- C1: starting from the empty Pinned-Global Table, any interleaving of
the Global-Symbol Linker's mutex-serialised critical sections — across all
code objects, agents and threads, each section re-checking the table
before inserting and pinning, as the source's locked double-check does —
pins a given symbol name's host memory at most once for the lifetime of
the process. -/
theorem c1_symbol_pinned_at_most_once (lock : Nat → Nat → Nat)
    (steps : List PinStep) (x : String) :
    countPins x (runSteps lock steps initGState) ≤ 1 :=
  countPins_runSteps_invariant lock steps x initGState
    (by simp [countPins, initGState])
    (fun h => absurd h (by simp [countPins, initGState]))

/-- C2 (failing input): when a required symbol (`g`) is already present in
the Pinned-Global Table, `associate_code_object_symbols_with_host_allocation`
returns from the whole function at once: the state is unchanged — `g` is
not defined on the current agent's executable and the remaining undefined
name (`h`) is never processed, where the claim requires the pinned address
to be reused, `g` defined for the current agent, and processing to
continue. -/
theorem c2_reuse_returns_without_defining :
    associate_code_object_symbols_with_host_allocation symtabGH lockOracle 2
      ["g", "h"] gPinned = .ok gPinned ∧
    gPinned.defines.filter (fun d => d.1 = 2) = [] ∧
    gPinned.pins.filter (fun p => p.1 = "h") = [] := by
  refine ⟨rfl, rfl, rfl⟩

/-- C3 (failing input): a symbol (`m`) absent from the Host Symbol Table
raises no error when an earlier name of the same code object (`g`) is
already in the Pinned-Global Table — the early `return` skips the lookup
that the claim says must fail fatally naming `m`. -/
theorem c3_missing_symbol_silently_skipped :
    associate_code_object_symbols_with_host_allocation
      (fun n => if n = "g" then some (7, 4) else none) lockOracle 2
      ["g", "m"] gPinned = .ok gPinned := by
  rfl

/-- C9: in both Host Symbol Table variants, looking up a symbol name
returns the (address, size) pair of the first record in module scan
order — `emplace` never overwrites, so later duplicates are ignored. -/
theorem c9_first_writer_wins (ms : List Module) (n : String) :
    alookup (symbol_addresses ms) n =
      ((scanRecordsV1 ms 0).find? (fun r => r.1 = n)).map (·.2) ∧
    alookup (symbol_addresses_v2 ms) n =
      ((scanRecordsV2 ms).find? (fun r => r.1 = n)).map (·.2) :=
  ⟨alookup_buildTable _ n, alookup_buildTable _ n⟩

/-- C10: every name returned by `copy_names_of_undefined_symbols` is
non-empty and comes from a symbol-table entry whose section index is
`SHN_UNDEF`; in particular the mandatory ELF null symbol (empty name) is
never returned. -/
theorem c10_undefined_names_nonempty_and_undef (syms : List Sym) (n : String)
    (h : n ∈ copy_names_of_undefined_symbols syms) :
    n ≠ "" ∧ ∃ s ∈ syms, s.name = n ∧ s.sectIdx = SHN_UNDEF := by
  unfold copy_names_of_undefined_symbols at h
  simp only [List.mem_filterMap] at h
  obtain ⟨s, hs, hf⟩ := h
  by_cases hc : s.sectIdx = SHN_UNDEF ∧ s.name ≠ ""
  · rw [if_pos hc] at hf
    injection hf with hf
    subst hf
    exact ⟨hc.2, s, hs, rfl, hc.1⟩
  · rw [if_neg hc] at hf
    cases hf

theorem scanRecordsV1_mem (ms : List Module) (iter : Nat)
    (r : String × Nat × Nat) (h : r ∈ scanRecordsV1 ms iter) :
    ∃ pre m post, ms = pre ++ m :: post ∧ m.loadOk = true ∧
      ∃ s ∈ m.syms, s.type = STT_OBJECT ∧ s.sectIdx ≠ SHN_UNDEF ∧
        r = (s.name,
             s.value +
               (if iter + pre.countP (fun x => x.loadOk) = 0 then 0 else m.bias),
             s.size) := by
  induction ms generalizing iter with
  | nil => simp [scanRecordsV1] at h
  | cons m ms ih =>
    unfold scanRecordsV1 at h
    by_cases hl : m.loadOk
    · rw [if_pos hl] at h
      rcases List.mem_append.mp h with hm | hm
      · simp only [List.mem_filterMap] at hm
        obtain ⟨s, hs, hf⟩ := hm
        unfold recordOfSym at hf
        by_cases hc : s.type = STT_OBJECT ∧ s.sectIdx ≠ SHN_UNDEF
        · rw [if_pos hc] at hf
          injection hf with hf
          refine ⟨[], m, ms, rfl, hl, s, hs, hc.1, hc.2, ?_⟩
          rw [← hf]
          by_cases hi : iter = 0 <;> simp [hi]
        · rw [if_neg hc] at hf
          cases hf
      · obtain ⟨pre, mm, post, hms, hml, s, hs, h1, h2, hr⟩ := ih (iter + 1) hm
        refine ⟨m :: pre, mm, post, by simp [hms], hml, s, hs, h1, h2, ?_⟩
        rw [hr]
        have hne1 : (iter + 1) + pre.countP (fun x => x.loadOk) ≠ 0 := by omega
        have hne2 :
            iter + (m :: pre).countP (fun x => x.loadOk) ≠ 0 := by
          simp [List.countP_cons, hl]
        rw [if_neg hne1, if_neg hne2]
    · rw [if_neg hl] at h
      obtain ⟨pre, mm, post, hms, hml, s, hs, h1, h2, hr⟩ := ih iter h
      refine ⟨m :: pre, mm, post, by simp [hms], hml, s, hs, h1, h2, ?_⟩
      rw [hr]
      have hcnt : (m :: pre).countP (fun x => x.loadOk) =
          pre.countP (fun x => x.loadOk) := by
        simp [List.countP_cons, hl]
      rw [hcnt]

theorem scanRecordsV2_mem (ms : List Module) (r : String × Nat × Nat)
    (h : r ∈ scanRecordsV2 ms) :
    ∃ m ∈ ms, m.loadOk = true ∧ ∃ s ∈ m.syms,
      s.type = STT_OBJECT ∧ s.sectIdx ≠ SHN_UNDEF ∧
        r = (s.name, s.value, s.size) := by
  induction ms with
  | nil => simp [scanRecordsV2] at h
  | cons m ms ih =>
    unfold scanRecordsV2 at h
    by_cases hl : m.loadOk
    · rw [if_pos hl] at h
      rcases List.mem_append.mp h with hm | hm
      · simp only [List.mem_filterMap] at hm
        obtain ⟨s, hs, hf⟩ := hm
        unfold recordOfSymV2 at hf
        by_cases hc : s.type = STT_OBJECT ∧ s.sectIdx ≠ SHN_UNDEF
        · rw [if_pos hc] at hf
          injection hf with hf
          exact ⟨m, List.mem_cons_self m ms, hl, s, hs, hc.1, hc.2, hf.symm⟩
        · rw [if_neg hc] at hf
          cases hf
      · obtain ⟨mm, hmm, rest⟩ := ih hm
        exact ⟨mm, List.mem_cons_of_mem m hmm, rest⟩
    · rw [if_neg hl] at h
      obtain ⟨mm, hmm, rest⟩ := ih h
      exact ⟨mm, List.mem_cons_of_mem m hmm, rest⟩

/-- C6 counterexample: the shared-object `symbol_addresses` variant
records the raw symbol value with no load-bias.  For a non-main module
with load bias 5 holding object symbol `g` with raw value 10, the table
records address 10, not the 10 + 5 the claim requires. -/
theorem c6_counterexample :
    alookup
        (symbol_addresses_v2
          [⟨true, 0, []⟩, ⟨true, 5, [⟨"g", 10, 4, 1, 0, 1⟩]⟩]) "g"
      = some (10, 4) ∧ (10 : Nat) ≠ 10 + 5 :=
  ⟨by decide, by decide⟩

/-- C6 amended: every entry recorded by either Host Symbol Scanner comes
from a symbol of type `STT_OBJECT` whose section index is not `SHN_UNDEF`;
the main-image variant records the raw value plus the module's load-bias
for every module after the first successfully loaded one (the main image,
which gets the raw value); the shared-object variant records the raw value
unmodified for every module. -/
theorem c6_recorded_entries_shape (ms : List Module)
    (r₁ r₂ : String × Nat × Nat)
    (h₁ : r₁ ∈ scanRecordsV1 ms 0) (h₂ : r₂ ∈ scanRecordsV2 ms) :
    (∃ pre m post, ms = pre ++ m :: post ∧ m.loadOk = true ∧
      ∃ s ∈ m.syms, s.type = STT_OBJECT ∧ s.sectIdx ≠ SHN_UNDEF ∧
        r₁ = (s.name,
              s.value +
                (if pre.countP (fun x => x.loadOk) = 0 then 0 else m.bias),
              s.size)) ∧
    (∃ m ∈ ms, m.loadOk = true ∧ ∃ s ∈ m.syms,
      s.type = STT_OBJECT ∧ s.sectIdx ≠ SHN_UNDEF ∧
        r₂ = (s.name, s.value, s.size)) := by
  constructor
  · obtain ⟨pre, m, post, hms, hml, s, hs, ht, hsi, hr⟩ :=
      scanRecordsV1_mem ms 0 r₁ h₁
    exact ⟨pre, m, post, hms, hml, s, hs, ht, hsi, by simpa using hr⟩
  · exact scanRecordsV2_mem ms r₂ h₂

/-- Witness for C6 at a one-module list: both scanners record the object
symbol `g`, and the required provenance holds for it. -/
theorem c6_recorded_entries_shape_witness :
    (("g", 10, 4) ∈ scanRecordsV1 [⟨true, 5, [⟨"g", 10, 4, 1, 0, 1⟩]⟩] 0) ∧
    (("g", 10, 4) ∈ scanRecordsV2 [⟨true, 5, [⟨"g", 10, 4, 1, 0, 1⟩]⟩]) ∧
    ((∃ pre m post,
        [(⟨true, 5, [⟨"g", 10, 4, 1, 0, 1⟩]⟩ : Module)] = pre ++ m :: post ∧
        m.loadOk = true ∧
        ∃ s ∈ m.syms, s.type = STT_OBJECT ∧ s.sectIdx ≠ SHN_UNDEF ∧
          ("g", 10, 4) = ((s.name : String),
            s.value +
              (if pre.countP (fun x => x.loadOk) = 0 then 0 else m.bias),
            s.size)) ∧
      (∃ m ∈ [(⟨true, 5, [⟨"g", 10, 4, 1, 0, 1⟩]⟩ : Module)], m.loadOk = true ∧
        ∃ s ∈ m.syms, s.type = STT_OBJECT ∧ s.sectIdx ≠ SHN_UNDEF ∧
          (("g", 10, 4) : String × Nat × Nat) = (s.name, s.value, s.size))) :=
  ⟨by decide, by decide,
    c6_recorded_entries_shape _ _ _ (by decide) (by decide)⟩

theorem alookup_map_setkey_other {β : Type} (t : List (Nat × β))
    (k k' : Nat) (v₀ : β) (h : k ≠ k') :
    alookup (t.map (fun p => if p.1 = k then (p.1, v₀) else p)) k' =
      alookup t k' := by
  have h' : k' ≠ k := Ne.symm h
  induction t with
  | nil => rfl
  | cons p ps ih =>
    simp only [List.map_cons]
    by_cases hp : p.1 = k
    · simp [alookup, hp, h, h', ih]
    · by_cases hp' : p.1 = k' <;> simp [alookup, hp, hp', h', ih]

theorem alookup_pushExecs_other (t : List (Nat × List Exec))
    (agent agent' : Nat) (es : List Exec) (h : agent ≠ agent') :
    alookup (pushExecs t agent es) agent' = alookup t agent' := by
  unfold pushExecs
  cases hl : alookup t agent with
  | some old => exact alookup_map_setkey_other t agent agent' (old ++ es) h
  | none => exact alookup_append_single_other t agent agent' es h

theorem make_executable_table_all_miss (symtab : String → Option (Nat × Nat))
    (lock : Nat → Nat → Nat) (accs : List Accel)
    (cot : List (Nat × List CodeObj)) (y : List (Nat × List Exec)) (s : GState)
    (h : ∀ b ∈ accs, alookup cot b.isa = none) :
    make_executable_table_ symtab lock accs cot y s = .ok (y, s) := by
  induction accs with
  | nil => rfl
  | cons a accs ih =>
    unfold make_executable_table_
    rw [h a (List.mem_cons_self a accs)]
    exact ih (fun b hb => h b (List.mem_cons_of_mem a hb))

theorem make_executable_table_agent_none (symtab : String → Option (Nat × Nat))
    (lock : Nat → Nat → Nat) (accs : List Accel)
    (cot : List (Nat × List CodeObj)) (a : Accel)
    (hmiss : ∀ b ∈ accs, b.agent = a.agent → alookup cot b.isa = none) :
    ∀ (y : List (Nat × List Exec)) (s : GState) t s',
      alookup y a.agent = none →
      make_executable_table_ symtab lock accs cot y s = .ok (t, s') →
      alookup t a.agent = none := by
  induction accs with
  | nil =>
    intro y s t s' hy h
    unfold make_executable_table_ at h
    injection h with h
    injection h with h1 h2
    rw [← h1]
    exact hy
  | cons b accs ih =>
    intro y s t s' hy h
    unfold make_executable_table_ at h
    cases hl : alookup cot b.isa with
    | none =>
      rw [hl] at h
      exact ih (fun c hc hcc => hmiss c (List.mem_cons_of_mem b hc) hcc)
        y s t s' hy h
    | some cos =>
      rw [hl] at h
      have hba : b.agent ≠ a.agent := by
        intro he
        rw [hmiss b (List.mem_cons_self b accs) he] at hl
        cases hl
      have h2 : (match execsForAgent symtab lock b.agent cos s with
          | Except.error m => Except.error m
          | Except.ok (es, s'') =>
            make_executable_table_ symtab lock accs cot
              (pushExecs y b.agent es) s'') = Except.ok (t, s') := h
      cases he : execsForAgent symtab lock b.agent cos s with
      | error m =>
        rw [he] at h2
        exact Except.noConfusion h2
      | ok p =>
        rw [he] at h2
        cases p with
        | mk es s'' =>
          refine ih (fun c hc hcc => hmiss c (List.mem_cons_of_mem b hc) hcc)
            (pushExecs y b.agent es) s'' t s' ?_ h2
          rw [alookup_pushExecs_other y b.agent a.agent es hba]
          exact hy

/-- C7: an accelerator whose ISA has no entry in the Code-Object Table
gets no executable and raises no error: if no accelerator sharing its
agent matches either, the finished Executable Table has no list for that
agent; and when no accelerator of the list matches at all, construction
succeeds returning the empty table untouched. -/
theorem c7_missing_isa_creates_nothing (symtab : String → Option (Nat × Nat))
    (lock : Nat → Nat → Nat) (accs : List Accel)
    (cot : List (Nat × List CodeObj)) (a : Accel)
    (_ha : a ∈ accs)
    (hmiss : ∀ b ∈ accs, b.agent = a.agent → alookup cot b.isa = none) :
    (∀ s t s', make_executable_table_ symtab lock accs cot [] s = .ok (t, s') →
      alookup t a.agent = none) ∧
    ((∀ b ∈ accs, alookup cot b.isa = none) →
      ∀ s, make_executable_table_ symtab lock accs cot [] s = .ok ([], s)) := by
  constructor
  · intro s t s' h
    exact make_executable_table_agent_none symtab lock accs cot a hmiss
      [] s t s' rfl h
  · intro hall s
    exact make_executable_table_all_miss symtab lock accs cot [] s hall

/-- Witness for C7: one accelerator with agent 1 and ISA 42, Code-Object
Table holding only ISA 7 — on success the agent's list is absent, and the
construction returns the empty table without error. -/
theorem c7_missing_isa_creates_nothing_witness :
    ((⟨1, 42⟩ : Accel) ∈ [(⟨1, 42⟩ : Accel)]) ∧
    (∀ b ∈ [(⟨1, 42⟩ : Accel)], b.agent = 1 →
      alookup [((7 : Nat), ([] : List CodeObj))] b.isa = none) ∧
    ((∀ s t s', make_executable_table_ symtabGH lockOracle [⟨1, 42⟩]
        [(7, [])] [] s = .ok (t, s') → alookup t 1 = none) ∧
     ((∀ b ∈ [(⟨1, 42⟩ : Accel)], alookup [((7 : Nat), ([] : List CodeObj))] b.isa = none) →
       ∀ s, make_executable_table_ symtabGH lockOracle [⟨1, 42⟩]
         [(7, [])] [] s = .ok ([], s))) :=
  ⟨by decide, by decide,
    c7_missing_isa_creates_nothing symtabGH lockOracle [⟨1, 42⟩] [(7, [])]
      ⟨1, 42⟩ (by decide) (by decide)⟩

/-- Every blob stored in a Code-Object Table under any key satisfies `P`
at that key. -/
def tableProv (P : Nat → List Nat → Prop)
    (y : List (Nat × List (List Nat))) : Prop :=
  ∀ isa blobs, alookup y isa = some blobs → ∀ b ∈ blobs, P isa b

theorem tableProv_mono {P Q : Nat → List Nat → Prop}
    (y : List (Nat × List (List Nat))) (h : tableProv P y)
    (hpq : ∀ isa b, P isa b → Q isa b) : tableProv Q y :=
  fun isa blobs hl b hb => hpq isa b (h isa blobs hl b hb)

theorem alookup_map_setkey_self {β : Type} (t : List (Nat × β)) (k : Nat)
    (v₀ : β) (h : (alookup t k).isSome) :
    alookup (t.map (fun p => if p.1 = k then (p.1, v₀) else p)) k = some v₀ := by
  induction t with
  | nil => simp [alookup] at h
  | cons p ps ih =>
    simp only [List.map_cons]
    by_cases hp : p.1 = k
    · simp [alookup, hp]
    · rw [if_neg hp]
      simp only [alookup, hp, if_false] at h ⊢
      exact ih h

theorem tableProv_insertAppend {P : Nat → List Nat → Prop}
    (y : List (Nat × List (List Nat))) (k : Nat) (v : List Nat)
    (hy : tableProv P y) (hv : P k v) :
    tableProv P (insertAppend y k v) := by
  intro isa blobs hl b hb
  unfold insertAppend at hl
  cases ho : alookup y k with
  | some old =>
    rw [ho] at hl
    have hl2 : alookup
        (y.map (fun p => if p.1 = k then (p.1, old ++ [v]) else p)) isa =
        some blobs := hl
    by_cases hik : isa = k
    · subst hik
      rw [alookup_map_setkey_self y isa (old ++ [v]) (by rw [ho]; rfl)] at hl2
      injection hl2 with hl2
      subst hl2
      rcases List.mem_append.mp hb with hbo | hbv
      · exact hy isa old ho b hbo
      · rw [List.mem_singleton.mp hbv]
        exact hv
    · rw [alookup_map_setkey_other y k isa (old ++ [v])
        (fun he => hik he.symm)] at hl2
      exact hy isa blobs hl2 b hb
  | none =>
    rw [ho] at hl
    have hl2 : alookup (y ++ [(k, [v])]) isa = some blobs := hl
    by_cases hik : isa = k
    · subst hik
      rw [alookup_append_right y _ isa ho] at hl2
      simp [alookup] at hl2
      subst hl2
      rw [List.mem_singleton.mp hb]
      exact hv
    · rw [alookup_append_single_other y k isa [v] (fun he => hik he.symm)] at hl2
      exact hy isa blobs hl2 b hb

theorem alookup_eraseKey {β : Type} (t : List (Nat × β)) (k : Nat) :
    alookup (eraseKey t k) k = none := by
  induction t with
  | nil => rfl
  | cons p ps ih =>
    simp only [eraseKey, List.filter_cons] at ih ⊢
    by_cases hp : p.1 = k
    · simpa [hp] using ih
    · simpa [hp, alookup] using ih

theorem alookup_eraseKey_other {β : Type} (t : List (Nat × β)) (k k' : Nat)
    (h : k' ≠ k) : alookup (eraseKey t k) k' = alookup t k' := by
  induction t with
  | nil => rfl
  | cons p ps ih =>
    simp only [eraseKey, List.filter_cons] at ih ⊢
    by_cases hp : p.1 = k
    · have hp' : ¬ p.1 = k' := by rw [hp]; exact fun he => h he.symm
      simp [hp, alookup, hp', ih, Ne.symm h]
    · by_cases hp' : p.1 = k' <;> simp [hp, hp', alookup, ih, h, Ne.symm h]

theorem tableProv_eraseKey {P : Nat → List Nat → Prop}
    (y : List (Nat × List (List Nat))) (k : Nat) (hy : tableProv P y) :
    tableProv P (eraseKey y k) := by
  intro isa blobs hl b hb
  by_cases hik : isa = k
  · subst hik
    rw [alookup_eraseKey y isa] at hl
    cases hl
  · rw [alookup_eraseKey_other y k isa hik] at hl
    exact hy isa blobs hl b hb

theorem tableProv_entries_fold {Q : Nat → List Nat → Prop}
    (supported : List (List Nat × Nat)) (es : List BundleEntry) :
    ∀ (y : List (Nat × List (List Nat))), tableProv Q y →
    (∀ e ∈ es, Q (triple_to_hsa_isa supported e.triple) e.blob) →
    tableProv Q
      (es.foldl
        (fun y z => insertAppend y (triple_to_hsa_isa supported z.triple) z.blob)
        y) := by
  induction es with
  | nil => exact fun y hy _ => hy
  | cons e es ih =>
    intro y hy hq
    simp only [List.foldl_cons]
    exact ih _
      (tableProv_insertAppend y _ _ hy (hq e (List.mem_cons_self e es)))
      (fun e' he' => hq e' (List.mem_cons_of_mem e he'))

theorem tableProv_make_code_object_table {Q : Nat → List Nat → Prop}
    (supported : List (List Nat × Nat)) (h : Bundled_code_header)
    (y : List (Nat × List (List Nat))) (hy : tableProv Q y)
    (hq : ∀ e ∈ h.entries, Q (triple_to_hsa_isa supported e.triple) e.blob) :
    tableProv Q (make_code_object_table_ supported h y) :=
  tableProv_eraseKey _ 0 (tableProv_entries_fold supported h.entries y hy hq)

theorem tableProv_code_object_fold {Q : Nat → List Nat → Prop}
    (supported : List (List Nat × Nat)) (hs : List Bundled_code_header) :
    ∀ (y : List (Nat × List (List Nat))), tableProv Q y →
    (∀ h ∈ hs, ∀ e ∈ h.entries,
      Q (triple_to_hsa_isa supported e.triple) e.blob) →
    tableProv Q
      (hs.foldl (fun y h => make_code_object_table_ supported h y) y) := by
  induction hs with
  | nil => exact fun y hy _ => hy
  | cons c hs ih =>
    intro y hy hq
    simp only [List.foldl_cons]
    exact ih _
      (tableProv_make_code_object_table supported c y hy
        (hq c (List.mem_cons_self c hs)))
      (fun h' hh' => hq h' (List.mem_cons_of_mem c hh'))

theorem code_object_table_lookup_zero (supported : List (List Nat × Nat))
    (hs : List Bundled_code_header) :
    alookup (code_object_table_ supported hs) 0 = none := by
  unfold code_object_table_
  have : ∀ (y : List (Nat × List (List Nat))), alookup y 0 = none →
      alookup (hs.foldl (fun y h => make_code_object_table_ supported h y) y)
        0 = none := by
    induction hs with
    | nil => exact fun y hy => hy
    | cons c hs ih =>
      intro y _
      simp only [List.foldl_cons]
      exact ih (make_code_object_table_ supported c y)
        (alookup_eraseKey _ 0)
  exact this [] rfl

/-- C5: after construction, the Code-Object Table has no binding for the
placeholder unresolved ISA `0`, and every blob it holds comes from a
bundle entry whose triple resolved to that (non-placeholder) key — an
entry whose triple fails to resolve never reaches the table, and the
exclusion raises nothing (the builder is a total function). -/
theorem c5_no_unresolved_isa_key (supported : List (List Nat × Nat))
    (hs : List Bundled_code_header) :
    alookup (code_object_table_ supported hs) 0 = none ∧
    ∀ isa blobs, alookup (code_object_table_ supported hs) isa = some blobs →
      isa ≠ 0 ∧ ∀ b ∈ blobs, ∃ h ∈ hs, ∃ e ∈ h.entries,
        triple_to_hsa_isa supported e.triple = isa ∧ e.blob = b := by
  have hzero := code_object_table_lookup_zero supported hs
  refine ⟨hzero, fun isa blobs hl => ⟨?_, fun b hb => ?_⟩⟩
  · intro h0
    rw [h0, hzero] at hl
    cases hl
  · have hprov := tableProv_code_object_fold
      (Q := fun isa b => ∃ h ∈ hs, ∃ e ∈ h.entries,
        triple_to_hsa_isa supported e.triple = isa ∧ e.blob = b)
      supported hs [] (fun isa blobs hl => by cases hl)
      (fun h hh e he => ⟨h, hh, e, he, rfl, rfl⟩)
    exact hprov isa blobs hl b hb

/-- Witness for C5: one container with a resolving entry (triple `[1]` ↦
ISA 3, blob `[5]`) and an unresolved one (triple `[2]`, blob `[6]`). -/
theorem c5_no_unresolved_isa_key_witness :
    (alookup (code_object_table_ [([1], 3)] [⟨[⟨[1], [5]⟩, ⟨[2], [6]⟩]⟩]) 0
      = none) ∧
    (alookup (code_object_table_ [([1], 3)] [⟨[⟨[1], [5]⟩, ⟨[2], [6]⟩]⟩]) 3
      = some [[5]]) ∧
    ((3 : Nat) ≠ 0 ∧ ∀ b ∈ [[5]], ∃ h ∈ [(⟨[⟨[1], [5]⟩, ⟨[2], [6]⟩]⟩ : Bundled_code_header)],
      ∃ e ∈ h.entries, triple_to_hsa_isa [([1], 3)] e.triple = 3 ∧ e.blob = b) :=
  ⟨(c5_no_unresolved_isa_key [([1], 3)] [⟨[⟨[1], [5]⟩, ⟨[2], [6]⟩]⟩]).1,
   by decide,
   (c5_no_unresolved_isa_key [([1], 3)] [⟨[⟨[1], [5]⟩, ⟨[2], [6]⟩]⟩]).2
     3 [[5]] (by decide)⟩

theorem take_length_append {α : Type} (l r : List α) :
    (l ++ r).take l.length = l := by
  induction l with
  | nil => rfl
  | cons a l ih => simp [ih]

theorem drop_length_append {α : Type} (l r : List α) :
    (l ++ r).drop l.length = r := by
  induction l with
  | nil => rfl
  | cons a l ih => simp [ih]

theorem decodeEntries_encode (es : List BundleEntry) (rest : List Nat) :
    decodeEntries es.length ((es.map encodeEntry).flatten ++ rest) =
      some (es, ((es.map encodeEntry).flatten).length) := by
  induction es generalizing rest with
  | nil => simp [decodeEntries]
  | cons e es ih =>
    have hb : ((e :: es).map encodeEntry).flatten ++ rest =
        e.triple.length ::
          (e.triple ++ (e.blob.length ::
            (e.blob ++ ((es.map encodeEntry).flatten ++ rest)))) := by
      simp [encodeEntry]
    rw [hb]
    have h1 : e.triple.length ≤
        (e.triple ++ (e.blob.length ::
          (e.blob ++ ((es.map encodeEntry).flatten ++ rest)))).length := by
      simp
    have h2 : e.blob.length ≤
        (e.blob ++ ((es.map encodeEntry).flatten ++ rest)).length := by
      simp
    simp only [List.length_cons, decodeEntries, h1, if_true,
      drop_length_append, take_length_append, h2, ih]
    have hlen : (((e :: es).map encodeEntry).flatten).length =
        1 + e.triple.length + 1 + e.blob.length +
          ((es.map encodeEntry).flatten).length := by
      simp [encodeEntry]
      omega
    rw [hlen]

theorem decodeBundledContainer_encode (h : Bundled_code_header)
    (rest : List Nat) :
    decodeBundledContainer (encodeBundle h ++ rest) =
      some (h, (encodeBundle h).length) := by
  have hb : encodeBundle h ++ rest =
      79 :: 66 :: bundleVersion :: h.entries.length ::
        ((h.entries.map encodeEntry).flatten ++ rest) := by
    simp [encodeBundle, bundleMagic]
  rw [hb]
  simp only [decodeBundledContainer, bundleMagic, bundleVersion,
    decodeEntries_encode]
  have hlen : (encodeBundle h).length =
      4 + ((h.entries.map encodeEntry).flatten).length := by
    simp [encodeBundle, bundleMagic]
    omega
  simp [hlen]

theorem decodeBundledContainer_pos (bytes : List Nat)
    (hh : Bundled_code_header) (n : Nat)
    (hd : decodeBundledContainer bytes = some (hh, n)) : 0 < n := by
  rcases bytes with _ | ⟨m1, _ | ⟨m2, _ | ⟨v, _ | ⟨cnt, rest⟩⟩⟩⟩
  · simp [decodeBundledContainer] at hd
  · simp [decodeBundledContainer] at hd
  · simp [decodeBundledContainer] at hd
  · simp [decodeBundledContainer] at hd
  · unfold decodeBundledContainer at hd
    have hd2 : (if [m1, m2] = bundleMagic ∧ v = bundleVersion then
        (match decodeEntries cnt rest with
         | some (es, c) => some ((⟨es⟩ : Bundled_code_header), 4 + c)
         | none => none)
      else none) = some (hh, n) := hd
    by_cases hg : [m1, m2] = bundleMagic ∧ v = bundleVersion
    · rw [if_pos hg] at hd2
      cases hde : decodeEntries cnt rest with
      | none => rw [hde] at hd2; cases hd2
      | some p =>
        rw [hde] at hd2
        cases p with
        | mk es c =>
          injection hd2 with hd3
          have hsnd := congrArg Prod.snd hd3
          simp at hsnd
          omega
    · rw [if_neg hg] at hd2
      cases hd2

theorem kernel_sections_loop_fuel (f1 : Nat) :
    ∀ (f2 : Nat) (bytes : List Nat), bytes.length < f1 → bytes.length < f2 →
      kernel_sections_loop f1 bytes = kernel_sections_loop f2 bytes := by
  induction f1 with
  | zero =>
    intro f2 bytes h1 _
    omega
  | succ f1 ih =>
    intro f2 bytes h1 h2
    cases f2 with
    | zero => omega
    | succ f2 =>
      simp only [kernel_sections_loop]
      by_cases hb : bytes.isEmpty
      · simp [hb]
      · simp only [hb, Bool.false_eq_true, if_false]
        cases hd : decodeBundledContainer bytes with
        | none => rfl
        | some p =>
          cases p with
          | mk h' n =>
            have hlen : 0 < bytes.length := by
              cases bytes with
              | nil => simp at hb
              | cons a t => simp
            have hpos := decodeBundledContainer_pos bytes h' n hd
            have hdl : (bytes.drop n).length = bytes.length - n := by
              simp
            exact congrArg (h' :: ·)
              (ih f2 (bytes.drop n) (by omega) (by omega))

theorem kernel_sections_loop_encode (cs : List Bundled_code_header)
    (junk : List Nat) (hjunk : decodeBundledContainer junk = none) :
    ∀ fuel, ((cs.map encodeBundle).flatten ++ junk).length < fuel →
      kernel_sections_loop fuel ((cs.map encodeBundle).flatten ++ junk) = cs := by
  induction cs with
  | nil =>
    intro fuel hf
    simp only [List.map_nil, List.flatten_nil, List.nil_append] at hf ⊢
    cases fuel with
    | zero => omega
    | succ fuel =>
      simp only [kernel_sections_loop]
      by_cases hb : junk.isEmpty
      · simp [hb]
      · simp [hb, hjunk]
  | cons c cs ih =>
    intro fuel hf
    have hflat : ((c :: cs).map encodeBundle).flatten ++ junk =
        encodeBundle c ++ ((cs.map encodeBundle).flatten ++ junk) := by simp
    rw [hflat] at hf ⊢
    cases fuel with
    | zero => omega
    | succ fuel =>
      have henc : 0 < (encodeBundle c).length := by
        simp [encodeBundle, bundleMagic]
      have hne : (encodeBundle c ++
          ((cs.map encodeBundle).flatten ++ junk)).isEmpty = false := by
        cases he : encodeBundle c with
        | nil => rw [he] at henc; simp at henc
        | cons a t => simp [he]
      simp only [kernel_sections_loop, hne, Bool.false_eq_true, if_false,
        decodeBundledContainer_encode, drop_length_append]
      have hrec : ((cs.map encodeBundle).flatten ++ junk).length < fuel := by
        rw [List.length_append] at hf
        omega
      rw [ih fuel hrec]

/-- C4: a reserved section consisting of any number of validly encoded
containers followed by malformed trailing bytes (any suffix on which the
container decoder fails) yields exactly those containers, in order, with
no error: the loop advances by each container's declared size and stops
at the first decode failure keeping everything already decoded. -/
theorem c4_extractor_recovers_valid_prefix (cs : List Bundled_code_header)
    (junk : List Nat) (hjunk : decodeBundledContainer junk = none) :
    kernel_sections_of ((cs.map encodeBundle).flatten ++ junk) = cs :=
  kernel_sections_loop_encode cs junk hjunk _ (Nat.lt_succ_self _)

/-- Witness for C4: one container (one entry, triple `[1]`, blob
`[9, 9]`) followed by the malformed byte `0`. -/
theorem c4_extractor_recovers_valid_prefix_witness :
    (decodeBundledContainer [0] = none) ∧
    kernel_sections_of
        (([(⟨[⟨[1], [9, 9]⟩]⟩ : Bundled_code_header)].map encodeBundle).flatten
          ++ [0])
      = [⟨[⟨[1], [9, 9]⟩]⟩] :=
  ⟨by decide, c4_extractor_recovers_valid_prefix _ _ (by decide)⟩

theorem executableV2_fatal (d : Driver) (agent : Nat)
    (h : ¬(d.createStatus = 0 ∧ d.loadStatus = 0 ∧ d.validateStatus = 0 ∧
      d.freezeStatus = 0)) :
    ∃ m, executableV2 d agent = .error m := by
  by_cases h1 : d.createStatus = 0
  · by_cases h2 : d.loadStatus = 0
    · by_cases h3 : d.validateStatus = 0
      · by_cases h4 : d.freezeStatus = 0
        · exact absurd ⟨h1, h2, h3, h4⟩ h
        · exact ⟨"Failed in hsa_executable_freeze, with error: " ++
              toString d.freezeStatus, by
            simp [executableV2, throwing_hsa_result_check, h1, h2, h3, h4,
              Bind.bind, Except.bind]⟩
      · exact ⟨"Failed in hsa_executable_validate_alt, with error: " ++
            toString d.validateStatus, by
          simp [executableV2, throwing_hsa_result_check, h1, h2, h3,
            Bind.bind, Except.bind]⟩
    · exact ⟨"Failed in hsa_executable_load_agent_code_object, with error: " ++
          toString d.loadStatus, by
        simp [executableV2, throwing_hsa_result_check, h1, h2,
          Bind.bind, Except.bind]⟩
  · exact ⟨"Failed in hsa_executable_create_alt, with error: " ++
        toString d.createStatus, by
      simp [executableV2, throwing_hsa_result_check, h1,
        Bind.bind, Except.bind]⟩

theorem make_executable_table_v2_aborts (a : Accel) (accs : List Accel)
    (cot : List (Nat × List Driver)) (y : List (Nat × List Exec))
    (d : Driver) (ds : List Driver) (m : String)
    (hl : alookup cot a.isa = some (d :: ds))
    (he : executableV2 d a.agent = .error m) :
    make_executable_table_v2 (a :: accs) cot y = .error m := by
  unfold make_executable_table_v2
  rw [hl]
  show (match (d :: ds).foldlM
      (fun es d => (executableV2 d a.agent).map (es ++ [·])) [] with
    | Except.error m => Except.error m
    | Except.ok es =>
      make_executable_table_v2 accs cot (pushExecs y a.agent es)) =
    Except.error m
  simp [List.foldlM, he, Bind.bind, Except.bind, Except.map]

theorem executableV1_symbol_failure (symtab : String → Option (Nat × Nat))
    (lock : Nat → Nat → Nat) (co : CodeObj) (agent : Nat) (s : GState)
    (syms : List Sym) (m : String)
    (hp : co.parseOk = true) (hdyn : co.dynsym = some syms)
    (ha : associate_code_object_symbols_with_host_allocation symtab lock agent
      (copy_names_of_undefined_symbols syms) s = .error m) :
    executableV1 symtab lock co agent s = .error m := by
  unfold executableV1
  simp [hp, hdyn, ha]

/-- C8 counterexample: the main-image `executable` ignores the statuses
of the driver calls.  A code object whose freeze call fails (status 1) is
still returned without any error — published into the Executable Table
with `frozen = false` — where the claim requires any freeze failure to be
fatal and abort construction. -/
theorem c8_counterexample :
    coFreezeFail.driver.freezeStatus ≠ 0 ∧
    executableV1 symtabGH lockOracle coFreezeFail 1 initGState =
      .ok (⟨true, true, false⟩, initGState) :=
  ⟨by decide, by rfl⟩

/-- C8 amended: in the shared-object builder every driver failure
(create, load, validate, freeze) is fatal and the first failing code
object aborts construction of the whole Executable Table with nothing
published; in the main-image builder a symbol-resolution failure is fatal
and propagates, but the driver-call statuses are ignored. -/
theorem c8_fatality_split :
    (∀ (d : Driver) (agent : Nat),
      ¬(d.createStatus = 0 ∧ d.loadStatus = 0 ∧ d.validateStatus = 0 ∧
        d.freezeStatus = 0) → ∃ m, executableV2 d agent = .error m) ∧
    (∀ (a : Accel) (accs : List Accel) (cot : List (Nat × List Driver))
        (y : List (Nat × List Exec)) (d : Driver) (ds : List Driver)
        (m : String),
      alookup cot a.isa = some (d :: ds) →
      executableV2 d a.agent = .error m →
      make_executable_table_v2 (a :: accs) cot y = .error m) ∧
    (∀ (symtab : String → Option (Nat × Nat)) (lock : Nat → Nat → Nat)
        (co : CodeObj) (agent : Nat) (s : GState) (syms : List Sym)
        (m : String),
      co.parseOk = true → co.dynsym = some syms →
      associate_code_object_symbols_with_host_allocation symtab lock agent
        (copy_names_of_undefined_symbols syms) s = .error m →
      executableV1 symtab lock co agent s = .error m) :=
  ⟨executableV2_fatal, make_executable_table_v2_aborts,
   executableV1_symbol_failure⟩

/-- Witness for C8 at concrete inputs: a freeze failure in the
shared-object builder is an error, aborts the whole table, and a missing
host symbol aborts the main-image builder. -/
theorem c8_fatality_split_witness :
    (∃ m, executableV2 ⟨0, 0, 0, 1⟩ 1 = .error m) ∧
    (make_executable_table_v2 [⟨1, 5⟩] [(5, [⟨0, 0, 0, 1⟩])] [] =
      .error "Failed in hsa_executable_freeze, with error: 1") ∧
    (executableV1 (fun _ => none) lockOracle
        ⟨true, some [⟨"m", 0, 0, 0, 0, 0⟩], ⟨0, 0, 0, 0⟩⟩ 1 initGState =
      .error "Global symbol: m is undefined.") :=
  ⟨c8_fatality_split.1 ⟨0, 0, 0, 1⟩ 1 (by decide),
   c8_fatality_split.2.1 ⟨1, 5⟩ [] [(5, [⟨0, 0, 0, 1⟩])] [] ⟨0, 0, 0, 1⟩ []
     "Failed in hsa_executable_freeze, with error: 1" (by rfl) (by rfl),
   c8_fatality_split.2.2 (fun _ => none) lockOracle
     ⟨true, some [⟨"m", 0, 0, 0, 0, 0⟩], ⟨0, 0, 0, 0⟩⟩ 1 initGState
     [⟨"m", 0, 0, 0, 0, 0⟩] "Global symbol: m is undefined."
     (by rfl) (by rfl) (by rfl)⟩

/-- Witness for C10 at a concrete symbol section holding the ELF null
symbol and one undefined reference. -/
theorem c10_undefined_names_nonempty_and_undef_witness :
    ("u" ∈ copy_names_of_undefined_symbols
        [⟨"", 0, 0, 0, 0, 0⟩, ⟨"u", 0, 0, 0, 0, 0⟩]) ∧
    ("u" ≠ "" ∧ ∃ s ∈ [(⟨"", 0, 0, 0, 0, 0⟩ : Sym), ⟨"u", 0, 0, 0, 0, 0⟩],
      s.name = "u" ∧ s.sectIdx = SHN_UNDEF) :=
  ⟨by decide, c10_undefined_names_nonempty_and_undef _ _ (by decide)⟩

end HC2
